import Mathlib

/-!
Verification of the two-stage sales pipeline of this repository:
stage 1 is `data_prep.py` (imputation, date normalisation, the derived
`Profit Margin (%)` column) and stage 2 is `feature_engineering.py`
(`run_week2_feature_engineering`: monthly resampling, rolling/lag features,
backfill merge, seasonal decomposition with failure containment, segment
volatility, product rollup).

The embedding is shallow.  Numeric cells are exact rationals; pandas stores
a missing float as the IEEE NaN, and float division can produce infinities,
so row-level float arithmetic is modelled by `FVal` (a rational, NaN, +inf
or -inf) with the IEEE-style propagation rules that numpy/pandas follow.
Tables are lists of records; groupby/merge are modelled with explicit
filters and joins over lists.
-/

/-- A pandas float cell: a finite rational, NaN (also the missing-value
marker of a float column), or a signed infinity. -/
inductive FVal where
  | num : ℚ → FVal
  | nan : FVal
  | inf : FVal
  | ninf : FVal
  deriving DecidableEq

/-- Float subtraction as numpy/pandas perform it elementwise. -/
def FVal.sub : FVal → FVal → FVal
  | num a, num b => num (a - b)
  | nan, _ => nan
  | _, nan => nan
  | inf, inf => nan
  | inf, _ => inf
  | ninf, ninf => nan
  | ninf, _ => ninf
  | _, inf => ninf
  | _, ninf => inf

/-- Float multiplication as numpy/pandas perform it elementwise. -/
def FVal.mul : FVal → FVal → FVal
  | num a, num b => num (a * b)
  | nan, _ => nan
  | _, nan => nan
  | num a, inf => if 0 < a then inf else if a < 0 then ninf else nan
  | num a, ninf => if 0 < a then ninf else if a < 0 then inf else nan
  | inf, num b => if 0 < b then inf else if b < 0 then ninf else nan
  | ninf, num b => if 0 < b then ninf else if b < 0 then inf else nan
  | inf, inf => inf
  | inf, ninf => ninf
  | ninf, inf => ninf
  | ninf, ninf => inf

/-- Float division as numpy/pandas perform it elementwise: a nonzero
number divided by zero is a signed infinity, `0 / 0` is NaN, and NaN
propagates.  No exception is ever raised. -/
def FVal.div : FVal → FVal → FVal
  | nan, _ => nan
  | _, nan => nan
  | num a, num b =>
      if b = 0 then (if 0 < a then inf else if a < 0 then ninf else nan)
      else num (a / b)
  | num _, inf => num 0
  | num _, ninf => num 0
  | inf, num b => if b < 0 then ninf else inf
  | ninf, num b => if b < 0 then inf else ninf
  | inf, inf => nan
  | inf, ninf => nan
  | ninf, inf => nan
  | ninf, ninf => nan

/-- The elementwise test `x != 0` of numpy/pandas.  NaN compares not-equal
to zero, so a missing cell passes this test. -/
def FVal.neZero : FVal → Bool
  | num a => decide (a ≠ 0)
  | _ => true

/-- Stage 1, `data_prep.py` lines 47-51 (`preprocess_data`), per row:
`np.where(Sales != 0, Profit / Sales * 100, 0)`. -/
def preprocess_data_margin (profit sales : FVal) : FVal :=
  if sales.neZero then (profit.div sales).mul (.num 100) else .num 0

/-- Stage 2, `feature_engineering.py` line 48: the pipeline recomputes
`Profit Margin (%) = Profit / Sales * 100` with no zero guard. -/
def week2_margin (profit sales : FVal) : FVal :=
  (profit.div sales).mul (.num 100)

/-- `shift(12)` on the monthly sales series (`feature_engineering.py`
line 69): the value 12 positions earlier, NaN for the first 12 entries. -/
def slyAt (xs : List ℚ) (i : ℕ) : FVal :=
  if 12 ≤ i then .num (xs.getD (i - 12) 0) else .nan

/-- Monthly-grain YOY change, `feature_engineering.py` line 76:
`(Sales - Sales_Last_Year) / Sales_Last_Year * 100` in float
arithmetic, entry by entry over the monthly series. -/
def yoyMonthly (xs : List ℚ) : List FVal :=
  (List.range xs.length).map (fun i =>
    (((FVal.num (xs.getD i 0)).sub (slyAt xs i)).div (slyAt xs i)).mul (.num 100))

theorem getD_map_range {α : Type} (f : ℕ → α) (n i : ℕ) (d : α) (h : i < n) :
    ((List.range n).map f).getD i d = f i := by
  rw [List.getD_eq_getElem?_getD, List.getElem?_map, List.getElem?_range h]
  rfl

theorem fval_div_nan (p : FVal) : p.div .nan = .nan := by
  cases p <;> rfl

theorem fval_sub_nan (p : FVal) : p.sub .nan = .nan := by
  cases p <;> rfl

theorem fval_num_formula (x s : ℚ) (hs : s ≠ 0) :
    (((FVal.num x).sub (.num s)).div (.num s)).mul (.num 100) =
      .num ((x - s) / s * 100) := by
  have h1 : (FVal.num x).sub (.num s) = .num (x - s) := rfl
  have h2 : (FVal.num (x - s)).div (.num s) = .num ((x - s) / s) := by
    simp [FVal.div, hs]
  rw [h1, h2]
  rfl

theorem fval_zero_div_pos (x : ℚ) (hx : 0 < x) :
    (((FVal.num x).sub (.num 0)).div (.num 0)).mul (.num 100) = .inf := by
  have h1 : (FVal.num x).sub (.num 0) = .num x := by
    have : (FVal.num x).sub (.num 0) = .num (x - 0) := rfl
    rw [this, sub_zero]
  have h2 : (FVal.num x).div (.num 0) = .inf := by
    simp [FVal.div, hx]
  have h3 : FVal.inf.mul (.num 100) = .inf := by
    have h100 : (0 : ℚ) < 100 := by norm_num
    simp [FVal.mul, h100]
  rw [h1, h2, h3]

theorem fval_zero_div_neg (x : ℚ) (hx : x < 0) :
    (((FVal.num x).sub (.num 0)).div (.num 0)).mul (.num 100) = .ninf := by
  have h1 : (FVal.num x).sub (.num 0) = .num x := by
    have : (FVal.num x).sub (.num 0) = .num (x - 0) := rfl
    rw [this, sub_zero]
  have h2 : (FVal.num x).div (.num 0) = .ninf := by
    simp [FVal.div, hx, hx.not_lt]
  have h3 : FVal.ninf.mul (.num 100) = .ninf := by
    have h100 : (0 : ℚ) < 100 := by norm_num
    simp [FVal.mul, h100]
  rw [h1, h2, h3]

theorem fval_zero_div_zero (x : ℚ) (hx : x = 0) :
    (((FVal.num x).sub (.num 0)).div (.num 0)).mul (.num 100) = .nan := by
  subst hx
  have h1 : (FVal.num 0).sub (.num 0) = .num 0 := by
    have : (FVal.num 0).sub (.num 0) = .num (0 - 0) := rfl
    rw [this, sub_zero]
  have h2 : (FVal.num 0).div (.num 0) = .nan := by
    simp [FVal.div, lt_irrefl]
  rw [h1, h2]
  rfl

/-- The monthly YOY entry at a position `i < 12`: the shifted series is
NaN there, and NaN propagates through the whole formula. -/
theorem yoy_entry_first (xs : List ℚ) (i : ℕ) (h : i < xs.length) (h12 : i < 12) :
    (yoyMonthly xs).getD i .nan = .nan := by
  have hval : (yoyMonthly xs).getD i .nan =
      (((FVal.num (xs.getD i 0)).sub (slyAt xs i)).div (slyAt xs i)).mul (.num 100) := by
    unfold yoyMonthly
    exact getD_map_range _ _ _ _ h
  have hs : slyAt xs i = .nan := by
    unfold slyAt
    rw [if_neg (by omega)]
  rw [hval, hs, fval_sub_nan]
  rfl

/-- The monthly YOY entry at a position `12 ≤ i`, written through the
float formula on the current and 12-back values. -/
theorem yoy_entry_late (xs : List ℚ) (i : ℕ) (h : i < xs.length) (h12 : 12 ≤ i) :
    (yoyMonthly xs).getD i .nan =
      (((FVal.num (xs.getD i 0)).sub (.num (xs.getD (i - 12) 0))).div
        (.num (xs.getD (i - 12) 0))).mul (.num 100) := by
  have hval : (yoyMonthly xs).getD i .nan =
      (((FVal.num (xs.getD i 0)).sub (slyAt xs i)).div (slyAt xs i)).mul (.num 100) := by
    unfold yoyMonthly
    exact getD_map_range _ _ _ _ h
  have hs : slyAt xs i = .num (xs.getD (i - 12) 0) := by
    unfold slyAt
    rw [if_pos h12]
  rw [hval, hs]

/-- C1 counterexample: the claim asserts that the `Profit Margin (%)`
column is exactly 0 whenever `Sales` is null or zero, in stage 1 and in
the stage-2 pipeline which recomputes it.  At `Profit = 1`: the stage-2
recomputation on `Sales = 0` yields `+inf`, and the stage-1 computation on
a null (NaN) `Sales` yields NaN — neither is 0. -/
theorem c1_counterexample :
    week2_margin (.num 1) (.num 0) = .inf ∧ FVal.inf ≠ FVal.num 0 ∧
    preprocess_data_margin (.num 1) .nan = .nan ∧ FVal.nan ≠ FVal.num 0 := by
  refine ⟨by decide, by decide, by decide, by decide⟩

/-- C1 amended: stage 1 (`preprocess_data`) yields exactly 0 when
`Sales == 0` and `Profit / Sales * 100` when `Sales` is a nonzero number;
but a null `Sales` passes the `Sales != 0` test, so the result is then
NaN (null), not 0.  Stage 2 recomputes the column with no zero guard, so
there `Sales == 0` with positive `Profit` yields `+inf` and a null input
yields NaN.  Both computations are total: no division fault and no
exception on missing `Profit`/`Sales`. -/
theorem c1_amended_margin (p : FVal) (a q : ℚ) :
    preprocess_data_margin p (.num 0) = .num 0 ∧
    (q ≠ 0 → preprocess_data_margin (.num a) (.num q) = .num (a / q * 100)) ∧
    preprocess_data_margin p .nan = .nan ∧
    (q ≠ 0 → week2_margin (.num a) (.num q) = .num (a / q * 100)) ∧
    (0 < a → week2_margin (.num a) (.num 0) = .inf) ∧
    week2_margin p .nan = .nan := by
  refine ⟨?_, ?_, ?_, ?_, ?_, ?_⟩
  · simp [preprocess_data_margin, FVal.neZero]
  · intro hq
    simp [preprocess_data_margin, FVal.neZero, hq, FVal.div, FVal.mul]
  · simp [preprocess_data_margin, FVal.neZero, fval_div_nan, FVal.mul]
  · intro hq
    simp [week2_margin, FVal.div, hq, FVal.mul]
  · intro ha
    simp [week2_margin, FVal.div, ha, FVal.mul]
  · simp [week2_margin, fval_div_nan, FVal.mul]

/-- Witness for `c1_amended_margin` at `Profit = 1`, `Sales = 2` (the
guarded formula) and `Profit = 1`, `Sales = 0` (the unguarded stage-2
infinity). -/
theorem c1_amended_margin_witness :
    preprocess_data_margin (.num 1) (.num 2) = .num (1 / 2 * 100) ∧
    week2_margin (.num 1) (.num 0) = .inf := by
  exact ⟨(c1_amended_margin (.num 1) 1 2).2.1 (by norm_num),
    (c1_amended_margin (.num 1) 1 2).2.2.2.2.1 (by norm_num)⟩

/-- C2 counterexample: the claim asserts the monthly YOY value is null
whenever the 12-months-prior value is null or zero and is never an
infinity.  On a monthly series whose first value is 0 and whose
thirteenth value is 5, the code's entry 12 is `+inf`, not null. -/
theorem c2_counterexample :
    (yoyMonthly [0, 1, 1, 1, 1, 1, 1, 1, 1, 1, 1, 1, 5]).getD 12 .nan = .inf ∧
    FVal.inf ≠ FVal.nan := by
  constructor
  · rw [yoy_entry_late [0, 1, 1, 1, 1, 1, 1, 1, 1, 1, 1, 1, 5] 12 (by decide) (by decide)]
    exact fval_zero_div_pos 5 (by norm_num)
  · decide

/-- C2 amended: on the monthly series, the YOY entry at position `i` is
null (NaN) for the first 12 positions (prior-year value undefined), and
equals `(Sales - Sales_Last_Year) / Sales_Last_Year * 100` when the value
12 positions prior is nonzero; when that prior value is zero the entry is
`+inf` (current sales positive), `-inf` (negative) or NaN (zero) rather
than null.  The computation is total: no divide-by-zero fault. -/
theorem c2_amended_yoy (xs : List ℚ) (i : ℕ) (h : i < xs.length) :
    (i < 12 → (yoyMonthly xs).getD i .nan = .nan) ∧
    (12 ≤ i → xs.getD (i - 12) 0 ≠ 0 →
      (yoyMonthly xs).getD i .nan =
        .num ((xs.getD i 0 - xs.getD (i - 12) 0) / xs.getD (i - 12) 0 * 100)) ∧
    (12 ≤ i → xs.getD (i - 12) 0 = 0 → 0 < xs.getD i 0 →
      (yoyMonthly xs).getD i .nan = .inf) ∧
    (12 ≤ i → xs.getD (i - 12) 0 = 0 → xs.getD i 0 < 0 →
      (yoyMonthly xs).getD i .nan = .ninf) ∧
    (12 ≤ i → xs.getD (i - 12) 0 = 0 → xs.getD i 0 = 0 →
      (yoyMonthly xs).getD i .nan = .nan) := by
  refine ⟨?_, ?_, ?_, ?_, ?_⟩
  · intro h12
    exact yoy_entry_first xs i h h12
  · intro h12 hnz
    rw [yoy_entry_late xs i h h12]
    exact fval_num_formula _ _ hnz
  · intro h12 hz hpos
    rw [yoy_entry_late xs i h h12, hz]
    exact fval_zero_div_pos _ hpos
  · intro h12 hz hneg
    rw [yoy_entry_late xs i h h12, hz]
    exact fval_zero_div_neg _ hneg
  · intro h12 hz hzero
    rw [yoy_entry_late xs i h h12, hz]
    exact fval_zero_div_zero _ hzero

/-- Witness for `c2_amended_yoy` on a 13-month series with prior value 1
and current value 3: the YOY entry is `(3 - 1) / 1 * 100`. -/
theorem c2_amended_yoy_witness :
    (yoyMonthly [1, 1, 1, 1, 1, 1, 1, 1, 1, 1, 1, 1, 3]).getD 12 .nan =
      .num ((([1, 1, 1, 1, 1, 1, 1, 1, 1, 1, 1, 1, 3] : List ℚ).getD 12 0 -
        ([1, 1, 1, 1, 1, 1, 1, 1, 1, 1, 1, 1, 3] : List ℚ).getD 0 0) /
        ([1, 1, 1, 1, 1, 1, 1, 1, 1, 1, 1, 1, 3] : List ℚ).getD 0 0 * 100) := by
  exact (c2_amended_yoy [1, 1, 1, 1, 1, 1, 1, 1, 1, 1, 1, 1, 3] 12
    (by decide)).2.1 (by decide) (by decide)

/-!
Stage-1 imputation (`data_prep.py`, `handle_missing_values`, lines 18-33).
A table column is a dtype tag plus a list of cells; a missing entry is
`Cell.null` (pandas NaN/None).
-/

/-- One cell of a stage-1 column: a numeric value, a categorical (string)
value, or a missing entry. -/
inductive Cell where
  | num : ℚ → Cell
  | str : String → Cell
  | null : Cell
  deriving DecidableEq

/-- The dtype dichotomy tested on `data_prep.py` line 25: numeric dtypes
(`int64`/`float64`/`int32`/`float32`) versus everything else. -/
inductive DType where
  | numeric
  | object
  deriving DecidableEq

/-- A named-free column of the working DataFrame. -/
structure Column where
  dtype : DType
  values : List Cell
  deriving DecidableEq

/-- The numeric values present (non-missing) in a column. -/
def presentNums (vs : List Cell) : List ℚ :=
  vs.filterMap (fun c => match c with | .num q => some q | _ => none)

/-- Pandas `Series.median()` over the present values: middle of the
sorted list, or the mean of the two middle elements for an even count;
undefined (NaN, here `none`) for an empty list. -/
def median (xs : List ℚ) : Option ℚ :=
  match xs with
  | [] => none
  | _ :: _ =>
    let s := List.insertionSort (fun a b => a ≤ b) xs
    if xs.length % 2 = 1 then some (s.getD (xs.length / 2) 0)
    else some ((s.getD (xs.length / 2 - 1) 0 + s.getD (xs.length / 2) 0) / 2)

/-- Pandas `Series.fillna(x)`: replace exactly the missing entries by `x`. -/
def fillWith (x : Cell) (vs : List Cell) : List Cell :=
  vs.map (fun v => if v = Cell.null then x else v)

/-- Value order used by pandas `mode()` to sort its candidates. -/
def cellLE : Cell → Cell → Bool
  | .num a, .num b => decide (a ≤ b)
  | .str a, .str b => decide (a ≤ b)
  | .null, _ => true
  | _, .null => false
  | .num _, .str _ => true
  | .str _, .num _ => false

/-- Pandas `Series.mode()[0]`: among the non-missing values of maximal
multiplicity, the least one (`mode()` returns its candidates sorted
ascending and `[0]` takes the first).  `none` when every entry is
missing: `mode()` of an all-missing series is an empty series, and
indexing an empty series at position 0 raises `KeyError`. -/
def pandasModeFirst (vs : List Cell) : Option Cell :=
  let nn := vs.filter (fun c => c ≠ Cell.null)
  let maxCnt := (nn.map (fun c => nn.count c)).foldl max 0
  let cands := nn.dedup.filter (fun c => nn.count c = maxCnt)
  cands.foldl (fun acc c =>
    match acc with
    | none => some c
    | some a => if cellLE c a then some c else some a) none

/-- Loop body of `handle_missing_values` (`data_prep.py` lines 23-30) for
one column.  For a numeric column, `fillna(median)` — and since
`fillna(NaN)` fills nothing, an undefined median (all-missing column)
leaves the column still missing.  For any other column, `fillna(mode()[0])`
— which raises when the column is all-missing. -/
def imputeColumn (c : Column) : Except String Column :=
  if c.values.any (fun v => v = Cell.null) then
    if c.dtype = DType.numeric then
      match median (presentNums c.values) with
      | none => .ok c
      | some m => .ok ⟨c.dtype, fillWith (.num m) c.values⟩
    else
      match pandasModeFirst c.values with
      | none => .error ("KeyError: 0")
      | some v => .ok ⟨c.dtype, fillWith v c.values⟩
  else .ok c

/-- `handle_missing_values` (`data_prep.py` lines 18-33): the per-column
loop over the DataFrame; an exception in any column aborts the call. -/
def handle_missing_values (cols : List Column) : Except String (List Column) :=
  cols.mapM imputeColumn

theorem median_isSome (xs : List ℚ) (h : xs ≠ []) : ∃ m, median xs = some m := by
  match xs with
  | [] => exact absurd rfl h
  | x :: l =>
    rw [median]
    by_cases hlen : (x :: l).length % 2 = 1
    · exact ⟨_, by rw [if_pos hlen]⟩
    · exact ⟨_, by rw [if_neg hlen]⟩

theorem fillWith_num_no_null (m : ℚ) (vs : List Cell) :
    Cell.null ∉ fillWith (.num m) vs := by
  intro hmem
  rw [fillWith, List.mem_map] at hmem
  obtain ⟨v, hv, heq⟩ := hmem
  by_cases h : v = Cell.null
  · rw [if_pos h] at heq
    exact Cell.noConfusion heq
  · rw [if_neg h] at heq
    exact h heq

theorem fillWith_getD (x : Cell) (vs : List Cell) (i : ℕ) (h : i < vs.length) :
    (fillWith x vs).getD i .null =
      if vs.getD i .null = Cell.null then x else vs.getD i .null := by
  rw [fillWith, List.getD_eq_getElem?_getD, List.getElem?_map,
    List.getD_eq_getElem?_getD vs]
  cases hv : vs[i]? with
  | none =>
    rw [List.getElem?_eq_none_iff] at hv
    omega
  | some v => simp

/-- C3 is a code bug: `handle_missing_values` is claimed total on an
all-missing column.  The numeric half holds (median of an all-missing
column is undefined and `fillna(NaN)` leaves it still-missing, no throw),
but a categorical all-missing column makes `df[col].mode()` empty and
`mode()[0]` raises `KeyError` — the call aborts instead of returning. -/
theorem c3_code_bug :
    handle_missing_values [⟨DType.object, [Cell.null]⟩] = .error ("KeyError: 0") ∧
    handle_missing_values [⟨DType.numeric, [Cell.null]⟩] =
      .ok [⟨DType.numeric, [Cell.null]⟩] :=
  ⟨rfl, rfl⟩

/-- C8: for a numeric column with at least one missing and at least one
present entry, imputation succeeds, fills exactly the missing entries with
the median of the originally-present values, leaves present entries
unchanged, preserves the length, and leaves no missing entry. -/
theorem c8_impute_median (c : Column) (hdt : c.dtype = DType.numeric)
    (hmiss : Cell.null ∈ c.values) (q0 : ℚ) (hpres : Cell.num q0 ∈ c.values) :
    ∃ m, median (presentNums c.values) = some m ∧
      imputeColumn c = .ok ⟨c.dtype, fillWith (.num m) c.values⟩ ∧
      Cell.null ∉ fillWith (.num m) c.values ∧
      (fillWith (.num m) c.values).length = c.values.length ∧
      ∀ i, i < c.values.length →
        (c.values.getD i Cell.null = Cell.null →
          (fillWith (.num m) c.values).getD i Cell.null = Cell.num m) ∧
        (c.values.getD i Cell.null ≠ Cell.null →
          (fillWith (.num m) c.values).getD i Cell.null = c.values.getD i Cell.null) := by
  have hne : presentNums c.values ≠ [] := by
    intro hnil
    have : q0 ∈ presentNums c.values := by
      rw [presentNums, List.mem_filterMap]
      exact ⟨Cell.num q0, hpres, rfl⟩
    rw [hnil] at this
    exact (List.not_mem_nil q0) this
  obtain ⟨m, hm⟩ := median_isSome _ hne
  refine ⟨m, hm, ?_, fillWith_num_no_null m c.values, by rw [fillWith, List.length_map], ?_⟩
  · rw [imputeColumn, if_pos ?_, if_pos hdt, hm]
    rw [List.any_eq_true]
    exact ⟨Cell.null, hmiss, by simp⟩
  · intro i hi
    constructor
    · intro hnull
      rw [fillWith_getD _ _ _ hi, if_pos hnull]
    · intro hnn
      rw [fillWith_getD _ _ _ hi, if_neg hnn]

/-- Witness for `c8_impute_median` on the numeric column
`[3, missing, 1]`. -/
theorem c8_impute_median_witness :
    ∃ m, median (presentNums [Cell.num 3, Cell.null, Cell.num 1]) = some m ∧
      imputeColumn ⟨DType.numeric, [Cell.num 3, Cell.null, Cell.num 1]⟩ =
        .ok ⟨DType.numeric, fillWith (.num m) [Cell.num 3, Cell.null, Cell.num 1]⟩ ∧
      Cell.null ∉ fillWith (.num m) [Cell.num 3, Cell.null, Cell.num 1] :=
  (c8_impute_median ⟨DType.numeric, [Cell.num 3, Cell.null, Cell.num 1]⟩ rfl
    (by simp) 3 (by simp)).imp (fun m hm => ⟨hm.1, hm.2.1, hm.2.2.1⟩)

/-!
Stage 2 (`feature_engineering.py`, `run_week2_feature_engineering`).
A daily row has an order date, numeric sales and profit, and the
categorical `Region` / `Product Name` columns the later groupbys use.
Dates are calendar triples; `to_period('M')` is modelled by the absolute
month index `year * 12 + month`, which is injective and monotone on real
dates (month between 1 and 12).
-/

/-- A calendar date (the parsed `Order Date`). -/
structure Date where
  year : ℤ
  month : ℤ
  day : ℤ
  deriving DecidableEq

/-- `to_period('M')` / the month-start join key `Month_Key`: the absolute
month index of a date. -/
def monthKey (d : Date) : ℤ := d.year * 12 + d.month

/-- One row of the cleaned daily table read at the start of stage 2. -/
structure SRow where
  date : Date
  sales : ℚ
  profit : ℚ
  region : String
  product : String
  deriving DecidableEq

/-- The distinct month keys of the daily table in ascending order: the
index of the pandas groupby result (groupby sorts its keys). -/
def sortedKeys (rows : List SRow) : List ℤ :=
  List.insertionSort (fun a b => a ≤ b) ((rows.map (fun r => monthKey r.date)).dedup)

/-- The Monthly Series (`feature_engineering.py` line 57):
`df.groupby(df.index.to_period('M'))['Sales'].sum()` — one entry per
populated month, keys ascending, value the sum of that month's sales. -/
def monthlySales (rows : List SRow) : List (ℤ × ℚ) :=
  (sortedKeys rows).map (fun k =>
    (k, ((rows.filter (fun r => monthKey r.date = k)).map (fun r => r.sales)).sum))

/-- The `Sales` column of the Monthly Series. -/
def monthlySalesValues (rows : List SRow) : List ℚ := (monthlySales rows).map Prod.snd

/-- Pandas `rolling(window=w, min_periods=1).mean()` positionally: at
position `i` the mean of the last `min w (i+1)` values up to and
including position `i`. -/
def rollingMean (w : ℕ) (xs : List ℚ) : List ℚ :=
  (List.range xs.length).map (fun i =>
    let win := (xs.take (i + 1)).drop (i + 1 - w)
    win.sum / (win.length : ℚ))

/-- One row of the monthly feature table `sales_ts` after lines 67-76:
sales, the 3- and 6-month trailing means, `shift(12)` and the monthly
YOY change. -/
structure MRow where
  key : ℤ
  sales : ℚ
  rolling3 : ℚ
  rolling6 : ℚ
  slyr : FVal
  yoy : FVal
  deriving DecidableEq

/-- The monthly feature table `sales_ts` of lines 57-76, one row per
month of the Monthly Series in key order. -/
def monthlyTable (rows : List SRow) : List MRow :=
  let ks := sortedKeys rows
  let sal := monthlySalesValues rows
  let r3 := rollingMean 3 sal
  let r6 := rollingMean 6 sal
  let yy := yoyMonthly sal
  (List.range ks.length).map (fun i =>
    { key := ks.getD i 0, sales := sal.getD i 0, rolling3 := r3.getD i 0,
      rolling6 := r6.getD i 0, slyr := slyAt sal i, yoy := yy.getD i .nan })

/-- The rows of a left join contributed by one left row `a` with key `k`:
all matches in the right table, or a single null-extended row when there
is no match (`how='left'`). -/
def leftJoinOne {α β κ : Type} [DecidableEq κ] (f : β → κ) (t : List β) (a : α) (k : κ) :
    List (α × Option β) :=
  match t.filter (fun x => f x = k) with
  | [] => [(a, none)]
  | ms => ms.map (fun m => (a, some m))

/-- `DataFrame.merge(t, on=key, how='left')`: each left row paired with
its matches in `t` (by key `f` on the right, `g` on the left), in left
order. -/
def leftJoin {α β κ : Type} [DecidableEq κ] (f : β → κ) (g : α → κ) (t : List β)
    (l : List α) : List (α × Option β) :=
  l.flatMap (fun a => leftJoinOne f t a (g a))

/-- Lines 79-85: merge the monthly features onto the daily table by the
month-start key `Month_Key`.  The merged row carries the matched monthly
row (the code selects its `Rolling_3M_Sales`, `Rolling_6M_Sales` and
monthly `YOY_Change` columns). -/
def backfillStep (rows : List SRow) : List (SRow × Option MRow) :=
  leftJoin MRow.key (fun r => monthKey r.date) (monthlyTable rows) rows

/-- The `(Region, Month)` volatility groupby key: region and the
calendar month number (`df.index.month`), across years. -/
def volKey (r : SRow) : String × ℤ := (r.region, r.date.month)

/-- The distinct `(Region, Month)` keys.  (groupby sorts its keys; only
the key set matters for the join, so first-encounter order is kept.) -/
def volGroups (rows : List SRow) : List (String × ℤ) := (rows.map volKey).dedup

/-- The `Sales` values of one `(Region, Month)` group. -/
def groupSales (rows : List SRow) (k : String × ℤ) : List ℚ :=
  ((rows.filter (fun r => volKey r = k)).map (fun r => r.sales))

/-- Population variance (`ddof = 0`: divide by the count, not count-1).
The code's `Sales_Volatility_Monthly` is its square root, the
population standard deviation; the variance is kept here and the
standard-deviation facts are stated through `Real.sqrt`. -/
def popVar (xs : List ℚ) : ℚ :=
  ((xs.map (fun x => (x - xs.sum / (xs.length : ℚ)) ^ 2)).sum) / (xs.length : ℚ)

/-- Lines 101-103: `df.groupby(['Region', 'Month'])['Sales'].std(ddof=0)`
as a keyed table, one row per populated `(Region, Month)` group. -/
def volTable (rows : List SRow) : List ((String × ℤ) × ℚ) :=
  (volGroups rows).map (fun k => (k, popVar (groupSales rows k)))

/-- Line 104: merge the per-group volatility back onto every daily row of
the (already backfilled) table by `(Region, Month)`. -/
def volStep (bf : List (SRow × Option MRow)) :
    List ((SRow × Option MRow) × Option ((String × ℤ) × ℚ)) :=
  leftJoin Prod.fst (fun p => volKey p.1) (volTable (bf.map Prod.fst)) bf

/-- Lines 145-146: `df.groupby(['Region', 'Product Name'])['Sales']
.transform('sum')` — the total sales of the row's (region, product)
group, broadcast to the row. -/
def revenueOf (bases : List SRow) (r : SRow) : ℚ :=
  ((bases.filter (fun x => x.region = r.region ∧ x.product = r.product)).map
    (fun x => x.sales)).sum

/-- One row of the persisted enriched daily table: the daily row, its
month's backfilled feature row, its segment volatility (population
variance; the code's column is this value's square root) and its
per-(region, product) revenue rollup. -/
structure ERow where
  base : SRow
  monthly : Option MRow
  vol : Option ℚ
  revenue : ℚ
  deriving DecidableEq

/-- Attach the revenue rollup and collect the final enriched rows. -/
def revenueStep (ve : List ((SRow × Option MRow) × Option ((String × ℤ) × ℚ))) :
    List ERow :=
  ve.map (fun q =>
    { base := q.1.1, monthly := q.1.2, vol := q.2.map Prod.snd,
      revenue := revenueOf (ve.map (fun z => z.1.1)) q.1.1 })

/-- The enriched daily table the pipeline persists (line 173). -/
def enrichedOutput (rows : List SRow) : List ERow :=
  revenueStep (volStep (backfillStep rows))

/-- Modelled from the spec: the decomposition sub-step calls the external
statsmodels `seasonal_decompose(model='additive', period=12)`, which is
not part of this repository's sources; per the spec it fails on an
insufficient series (fewer than two complete 12-month cycles) and the
pipeline only catches and reports that failure. -/
def seasonalDecompose (xs : List ℚ) : Except String Unit :=
  if xs.length < 24 then .error ("x must have 2 complete cycles") else .ok ()

/-- `run_week2_feature_engineering`, computational core (lines 46-104 and
145-146): backfill, attempted decomposition (lines 93-98, wrapped in
try/except — its outcome is only reported, never consumed), volatility
merge, revenue rollup.  Returns the persisted table and the
decomposition outcome. -/
def run_week2_feature_engineering (rows : List SRow) :
    List ERow × Except String Unit :=
  let bf := backfillStep rows
  let dec := seasonalDecompose (monthlySalesValues rows)
  let ve := volStep bf
  (revenueStep ve, dec)

theorem range_length_map_getD {α : Type} (l : List α) (d : α) :
    (List.range l.length).map (fun i => l.getD i d) = l := by
  induction l with
  | nil => rfl
  | cons a l ih =>
    rw [List.length_cons, List.range_succ_eq_map, List.map_cons, List.getD_cons_zero,
      List.map_map]
    congr 1

theorem filter_key_eq_nil {β κ : Type} [DecidableEq κ] (f : β → κ) (t : List β) (k : κ)
    (h : k ∉ t.map f) : t.filter (fun x => f x = k) = [] := by
  apply List.filter_eq_nil_iff.mpr
  intro b hb
  simp only [decide_eq_true_eq]
  intro hfb
  exact h (hfb ▸ List.mem_map_of_mem f hb)

theorem filter_key_eq_single {β κ : Type} [DecidableEq κ] (f : β → κ) (t : List β) (k : κ)
    (hnd : (t.map f).Nodup) (hk : k ∈ t.map f) :
    ∃ b, b ∈ t ∧ f b = k ∧ t.filter (fun x => f x = k) = [b] := by
  induction t with
  | nil => simp at hk
  | cons a t ih =>
    rw [List.map_cons, List.nodup_cons] at hnd
    rcases List.mem_cons.mp hk with h | h
    · refine ⟨a, List.mem_cons_self a t, h.symm, ?_⟩
      rw [List.filter_cons_of_pos (by simp [← h])]
      rw [filter_key_eq_nil f t k ?_]
      · intro hmem
        exact hnd.1 (h ▸ hmem)
    · have hne : f a ≠ k := fun he => hnd.1 (he.symm ▸ h)
      obtain ⟨b, hb, hfb, hfil⟩ := ih hnd.2 h
      refine ⟨b, List.mem_cons_of_mem a hb, hfb, ?_⟩
      rw [List.filter_cons_of_neg (by simp [hne]), hfil]

theorem leftJoinOne_not_mem {α β κ : Type} [DecidableEq κ] (f : β → κ) (t : List β)
    (a : α) (k : κ) (h : k ∉ t.map f) : leftJoinOne f t a k = [(a, none)] := by
  unfold leftJoinOne
  rw [filter_key_eq_nil f t k h]

theorem leftJoinOne_mem {α β κ : Type} [DecidableEq κ] (f : β → κ) (t : List β)
    (a : α) (k : κ) (hnd : (t.map f).Nodup) (hk : k ∈ t.map f) :
    ∃ b, b ∈ t ∧ f b = k ∧ leftJoinOne f t a k = [(a, some b)] := by
  obtain ⟨b, hb, hfb, hfil⟩ := filter_key_eq_single f t k hnd hk
  refine ⟨b, hb, hfb, ?_⟩
  unfold leftJoinOne
  rw [hfil]
  rfl

theorem leftJoinOne_shape {α β κ : Type} [DecidableEq κ] (f : β → κ) (t : List β)
    (a : α) (k : κ) (hnd : (t.map f).Nodup) :
    ∃ o, leftJoinOne f t a k = [(a, o)] := by
  by_cases hk : k ∈ t.map f
  · obtain ⟨b, _, _, h⟩ := leftJoinOne_mem f t a k hnd hk
    exact ⟨some b, h⟩
  · exact ⟨none, leftJoinOne_not_mem f t a k hk⟩

theorem leftJoin_length {α β κ : Type} [DecidableEq κ] (f : β → κ) (g : α → κ)
    (t : List β) (l : List α) (hnd : (t.map f).Nodup) :
    (leftJoin f g t l).length = l.length := by
  induction l with
  | nil => rfl
  | cons a l ih =>
    unfold leftJoin at ih ⊢
    rw [List.flatMap_cons, List.length_append, ih]
    obtain ⟨o, ho⟩ := leftJoinOne_shape f t a (g a) hnd
    rw [ho]
    simp [Nat.add_comm]

theorem leftJoin_map_fst {α β κ : Type} [DecidableEq κ] (f : β → κ) (g : α → κ)
    (t : List β) (l : List α) (hnd : (t.map f).Nodup) :
    (leftJoin f g t l).map Prod.fst = l := by
  induction l with
  | nil => rfl
  | cons a l ih =>
    unfold leftJoin at ih ⊢
    rw [List.flatMap_cons, List.map_append, ih]
    obtain ⟨o, ho⟩ := leftJoinOne_shape f t a (g a) hnd
    rw [ho]
    rfl

theorem leftJoin_mem {α β κ : Type} [DecidableEq κ] (f : β → κ) (g : α → κ)
    (t : List β) (l : List α) (hnd : (t.map f).Nodup) (p : α × Option β)
    (hp : p ∈ leftJoin f g t l) :
    p.1 ∈ l ∧ (g p.1 ∈ t.map f → ∃ b, b ∈ t ∧ f b = g p.1 ∧ p.2 = some b) ∧
      (g p.1 ∉ t.map f → p.2 = none) := by
  unfold leftJoin at hp
  rw [List.mem_flatMap] at hp
  obtain ⟨a, ha, hpa⟩ := hp
  by_cases hk : g a ∈ t.map f
  · obtain ⟨b, hb, hfb, heq⟩ := leftJoinOne_mem f t a (g a) hnd hk
    rw [heq, List.mem_singleton] at hpa
    subst hpa
    exact ⟨ha, fun _ => ⟨b, hb, hfb, rfl⟩, fun hn => absurd hk hn⟩
  · rw [leftJoinOne_not_mem f t a (g a) hk, List.mem_singleton] at hpa
    subst hpa
    exact ⟨ha, fun hmem => absurd hmem hk, fun _ => rfl⟩

theorem sortedKeys_nodup (rows : List SRow) : (sortedKeys rows).Nodup := by
  unfold sortedKeys
  exact ((List.perm_insertionSort _ _).nodup_iff).mpr (List.nodup_dedup _)

theorem mem_sortedKeys (rows : List SRow) (r : SRow) (hr : r ∈ rows) :
    monthKey r.date ∈ sortedKeys rows := by
  unfold sortedKeys
  rw [(List.perm_insertionSort _ _).mem_iff, List.mem_dedup]
  exact List.mem_map_of_mem _ hr

theorem sortedKeys_sorted (rows : List SRow) :
    List.Sorted (fun a b : ℤ => a < b) (sortedKeys rows) := by
  have hle : List.Sorted (fun a b : ℤ => a ≤ b) (sortedKeys rows) :=
    List.sorted_insertionSort _ _
  exact hle.lt_of_le (sortedKeys_nodup rows)

theorem map_fst_pair {α β : Type} (l : List α) (v : α → β) :
    (l.map (fun k => (k, v k))).map Prod.fst = l := by
  induction l with
  | nil => rfl
  | cons a l ih =>
    simp only [List.map_cons]
    rw [ih]

theorem monthlyTable_map_key (rows : List SRow) :
    (monthlyTable rows).map MRow.key = sortedKeys rows := by
  simp only [monthlyTable, List.map_map]
  exact range_length_map_getD (sortedKeys rows) 0

theorem monthlyTable_keys_nodup (rows : List SRow) :
    ((monthlyTable rows).map MRow.key).Nodup := by
  rw [monthlyTable_map_key]
  exact sortedKeys_nodup rows

theorem volTable_map_fst (rows : List SRow) :
    (volTable rows).map Prod.fst = volGroups rows := by
  unfold volTable
  exact map_fst_pair _ _

theorem volTable_nodup (rows : List SRow) :
    ((volTable rows).map Prod.fst).Nodup := by
  rw [volTable_map_fst]
  unfold volGroups
  exact List.nodup_dedup _

theorem sum_map_add_distrib {κ : Type} (l : List κ) (f g : κ → ℚ) :
    (l.map (fun x => f x + g x)).sum = (l.map f).sum + (l.map g).sum := by
  induction l with
  | nil => simp
  | cons a l ih =>
    simp only [List.map_cons, List.sum_cons, ih]
    ring

theorem sum_map_ite_zero {κ : Type} [DecidableEq κ] (ks : List κ) (k : κ) (v : ℚ)
    (hnd : ks.Nodup) (hk : k ∈ ks) :
    (ks.map (fun x => if k = x then v else 0)).sum = v := by
  induction ks with
  | nil => simp at hk
  | cons a ks ih =>
    rw [List.nodup_cons] at hnd
    rcases List.mem_cons.mp hk with h | h
    · subst h
      rw [List.map_cons, List.sum_cons, if_pos rfl]
      have hz : (ks.map (fun x => if k = x then v else 0)).sum = 0 := by
        apply List.sum_eq_zero
        intro x hx
        obtain ⟨y, hy, hxy⟩ := List.mem_map.mp hx
        rw [← hxy, if_neg]
        intro he
        exact hnd.1 (he ▸ hy)
      rw [hz, add_zero]
    · have hne : k ≠ a := by
        intro he
        subst he
        exact hnd.1 h
      rw [List.map_cons, List.sum_cons, if_neg hne, zero_add]
      exact ih hnd.2 h

theorem sum_fiberwise {α κ : Type} [DecidableEq κ] (ks : List κ) (key : α → κ)
    (f : α → ℚ) (rows : List α) (hnd : ks.Nodup) (hcov : ∀ r ∈ rows, key r ∈ ks) :
    (ks.map (fun k => ((rows.filter (fun r => key r = k)).map f).sum)).sum
      = (rows.map f).sum := by
  induction rows with
  | nil =>
    rw [List.map_nil, List.sum_nil]
    apply List.sum_eq_zero
    intro x hx
    obtain ⟨k, _, hk⟩ := List.mem_map.mp hx
    rw [← hk]
    simp
  | cons r rs ih =>
    have hcov' : ∀ x ∈ rs, key x ∈ ks := fun x hx => hcov x (List.mem_cons_of_mem _ hx)
    have hsplit : ∀ k, (((r :: rs).filter (fun x => key x = k)).map f).sum
        = (if key r = k then f r else 0) + ((rs.filter (fun x => key x = k)).map f).sum := by
      intro k
      by_cases h : key r = k
      · rw [List.filter_cons_of_pos (by simp [h]), List.map_cons, List.sum_cons,
          if_pos h]
      · rw [List.filter_cons_of_neg (by simp [h]), if_neg h, zero_add]
    rw [List.map_congr_left (fun k _ => hsplit k), sum_map_add_distrib,
      sum_map_ite_zero ks (key r) (f r) hnd (hcov r (List.mem_cons_self r rs)),
      ih hcov', List.map_cons, List.sum_cons]

/-- C4: the Monthly Series produced by the groupby-sum resample has
strictly increasing month keys with no duplicates, and its sales values
sum to the sum of all daily sales (the resample is lossless for the sum
aggregate). -/
theorem c4_monthly_series (rows : List SRow) :
    List.Sorted (fun a b : ℤ => a < b) ((monthlySales rows).map Prod.fst) ∧
    ((monthlySales rows).map Prod.fst).Nodup ∧
    ((monthlySales rows).map Prod.snd).sum = (rows.map (fun r => r.sales)).sum := by
  have hfst : (monthlySales rows).map Prod.fst = sortedKeys rows := by
    unfold monthlySales
    exact map_fst_pair _ _
  refine ⟨?_, ?_, ?_⟩
  · rw [hfst]
    exact sortedKeys_sorted rows
  · rw [hfst]
    exact sortedKeys_nodup rows
  · unfold monthlySales
    rw [List.map_map]
    exact sum_fiberwise (sortedKeys rows) (fun r => monthKey r.date) (fun r => r.sales)
      rows (sortedKeys_nodup rows) (fun r hr => mem_sortedKeys rows r hr)

/-- C5: after the left-join by the month-start key, every daily row is
matched with exactly the Monthly Series row of its containing month (so
its backfilled rolling/YOY columns are that month's values), and a row
whose key is absent from the joined table receives nulls, not a fault. -/
theorem c5_backfill (rows : List SRow) (r : SRow) (t : List MRow) :
    backfillStep rows =
      rows.flatMap (fun x => leftJoinOne MRow.key (monthlyTable rows) x (monthKey x.date)) ∧
    (r ∈ rows → ∃ m, m ∈ monthlyTable rows ∧ m.key = monthKey r.date ∧
      leftJoinOne MRow.key (monthlyTable rows) r (monthKey r.date) = [(r, some m)]) ∧
    (monthKey r.date ∉ t.map MRow.key →
      leftJoinOne MRow.key t r (monthKey r.date) = [(r, none)]) := by
  refine ⟨rfl, ?_, ?_⟩
  · intro hr
    have hk : monthKey r.date ∈ (monthlyTable rows).map MRow.key := by
      rw [monthlyTable_map_key]
      exact mem_sortedKeys rows r hr
    exact leftJoinOne_mem MRow.key (monthlyTable rows) r (monthKey r.date)
      (monthlyTable_keys_nodup rows) hk
  · intro hnm
    exact leftJoinOne_not_mem MRow.key t r (monthKey r.date) hnm

/-- Witness for `c5_backfill` on a one-row table. -/
theorem c5_backfill_witness :
    ∃ m, m ∈ monthlyTable [⟨⟨2020, 1, 1⟩, 5, 1, "E", "P"⟩] ∧
      m.key = monthKey (⟨2020, 1, 1⟩ : Date) ∧
      leftJoinOne MRow.key (monthlyTable [⟨⟨2020, 1, 1⟩, 5, 1, "E", "P"⟩])
        (⟨⟨2020, 1, 1⟩, 5, 1, "E", "P"⟩ : SRow) (monthKey (⟨2020, 1, 1⟩ : Date)) =
        [((⟨⟨2020, 1, 1⟩, 5, 1, "E", "P"⟩ : SRow), some m)] :=
  (c5_backfill [⟨⟨2020, 1, 1⟩, 5, 1, "E", "P"⟩] ⟨⟨2020, 1, 1⟩, 5, 1, "E", "P"⟩ []).2.1
    (List.mem_singleton.mpr rfl)

/-- C6: the rolling mean with window `w` and `min_periods=1` at position
`i` is the mean of the trailing `min w (i+1)` values ending at `i` — the
window shrinks at the start of the series and is never smaller than 1 —
and on the series `[10, 20, 30, 40]` the 3-month value at month 4 is 30
and at month 1 is 10. -/
theorem c6_rolling (w i : ℕ) (xs : List ℚ) (hw : 1 ≤ w) (hi : i < xs.length) :
    (rollingMean w xs).getD i 0 =
      ((xs.take (i + 1)).drop (i + 1 - w)).sum /
        ((((xs.take (i + 1)).drop (i + 1 - w)).length : ℕ) : ℚ) ∧
    ((xs.take (i + 1)).drop (i + 1 - w)).length = min w (i + 1) ∧
    1 ≤ ((xs.take (i + 1)).drop (i + 1 - w)).length ∧
    (rollingMean 3 [10, 20, 30, 40]).getD 3 0 = 30 ∧
    (rollingMean 3 [10, 20, 30, 40]).getD 0 0 = 10 := by
  have hlen : ((xs.take (i + 1)).drop (i + 1 - w)).length = min w (i + 1) := by
    rw [List.length_drop, List.length_take]
    omega
  refine ⟨?_, hlen, by rw [hlen]; omega, ?_, ?_⟩
  · unfold rollingMean
    rw [getD_map_range _ _ _ _ hi]
  · unfold rollingMean
    rw [getD_map_range _ _ _ _ (by norm_num)]
    show ([(20 : ℚ), 30, 40].sum) / ((([(20 : ℚ), 30, 40].length : ℕ)) : ℚ) = 30
    norm_num [List.sum_cons, List.sum_nil]
  · unfold rollingMean
    rw [getD_map_range _ _ _ _ (by norm_num)]
    show ([(10 : ℚ)].sum) / ((([(10 : ℚ)].length : ℕ)) : ℚ) = 10
    norm_num [List.sum_cons, List.sum_nil]

/-- Witness for `c6_rolling`: the concrete series of the claim. -/
theorem c6_rolling_witness :
    (rollingMean 3 [10, 20, 30, 40]).getD 3 0 = 30 ∧
    (rollingMean 3 [10, 20, 30, 40]).getD 0 0 = 10 :=
  ⟨(c6_rolling 3 0 [10, 20, 30, 40] (by norm_num) (by norm_num)).2.2.2.1,
   (c6_rolling 3 0 [10, 20, 30, 40] (by norm_num) (by norm_num)).2.2.2.2⟩

theorem backfill_map_fst (rows : List SRow) :
    (backfillStep rows).map Prod.fst = rows := by
  unfold backfillStep
  exact leftJoin_map_fst _ _ _ _ (monthlyTable_keys_nodup rows)

theorem enrichedOutput_length (rows : List SRow) :
    (enrichedOutput rows).length = rows.length := by
  unfold enrichedOutput revenueStep
  rw [List.length_map]
  unfold volStep
  rw [leftJoin_length _ _ _ _ (volTable_nodup _)]
  unfold backfillStep
  exact leftJoin_length _ _ _ _ (monthlyTable_keys_nodup rows)

theorem popVar_singleton (x : ℚ) : popVar [x] = 0 := by
  simp [popVar]

/-- Every row of the enriched output carries the volatility statistic of
its own `(Region, Month)` group. -/
theorem enriched_vol_eq (rows : List SRow) (e : ERow) (he : e ∈ enrichedOutput rows) :
    e.vol = some (popVar (groupSales rows (volKey e.base))) := by
  have hbases : (backfillStep rows).map Prod.fst = rows := backfill_map_fst rows
  unfold enrichedOutput revenueStep at he
  rw [List.mem_map] at he
  obtain ⟨q, hq, he⟩ := he
  unfold volStep at hq
  obtain ⟨hq1, hq2, -⟩ := leftJoin_mem _ _ _ _ (volTable_nodup _) q hq
  have hcov : volKey q.1.1 ∈ (volTable ((backfillStep rows).map Prod.fst)).map Prod.fst := by
    rw [volTable_map_fst]
    unfold volGroups
    rw [List.mem_dedup]
    exact List.mem_map_of_mem volKey (List.mem_map_of_mem Prod.fst hq1)
  obtain ⟨b, hb, hfb, hq2e⟩ := hq2 hcov
  unfold volTable at hb
  rw [List.mem_map] at hb
  obtain ⟨k, hk, hbe⟩ := hb
  subst hbe
  simp only at hfb
  subst hfb
  rw [← he]
  show q.2.map Prod.snd = some (popVar (groupSales rows (volKey q.1.1)))
  rw [hq2e, hbases]
  rfl

/-- A junk default row, used only as the out-of-range default of `getD`. -/
def junkERow : ERow :=
  { base := { date := ⟨0, 0, 0⟩, sales := 0, profit := 0, region := "", product := "" },
    monthly := none, vol := none, revenue := 0 }

/-- C7: the `Sales_Volatility_Monthly` value joined onto each daily row
equals the `ddof = 0` statistic of that row's `(Region, Month)` group —
the joined value is the population variance, whose square root is the
code's standard-deviation column — and a group of exactly one row has
variance 0 and hence standard deviation exactly 0, not undefined. -/
theorem c7_volatility (rows : List SRow) (i : ℕ)
    (hi : i < (enrichedOutput rows).length) :
    ((enrichedOutput rows).getD i junkERow).vol =
      some (popVar (groupSales rows (volKey ((enrichedOutput rows).getD i junkERow).base))) ∧
    (∀ x : ℚ, popVar [x] = 0) ∧
    ((groupSales rows (volKey ((enrichedOutput rows).getD i junkERow).base)).length = 1 →
      Real.sqrt ((popVar (groupSales rows
        (volKey ((enrichedOutput rows).getD i junkERow).base)) : ℚ) : ℝ) = 0) := by
  have hmem : (enrichedOutput rows).getD i junkERow ∈ enrichedOutput rows := by
    rw [List.getD_eq_getElem?_getD, List.getElem?_eq_getElem hi, Option.getD_some]
    exact List.getElem_mem hi
  refine ⟨enriched_vol_eq rows _ hmem, fun x => popVar_singleton x, ?_⟩
  intro h1
  obtain ⟨x, hx⟩ := List.length_eq_one.mp h1
  rw [hx, popVar_singleton]
  norm_num

/-- Witness for `c7_volatility` on a one-row table. -/
theorem c7_volatility_witness :
    ((enrichedOutput [⟨⟨2020, 1, 1⟩, 5, 1, "E", "P"⟩]).getD 0 junkERow).vol =
      some (popVar (groupSales [⟨⟨2020, 1, 1⟩, 5, 1, "E", "P"⟩]
        (volKey ((enrichedOutput [⟨⟨2020, 1, 1⟩, 5, 1, "E", "P"⟩]).getD 0
          junkERow).base))) :=
  (c7_volatility [⟨⟨2020, 1, 1⟩, 5, 1, "E", "P"⟩] 0
    (by rw [enrichedOutput_length]; norm_num)).1

/-- C9: the decomposition sub-step's failure is contained: the persisted
output of the stage-2 run is exactly the enriched table built by the
backfill, volatility and rollup steps — independent of the decomposition
outcome — with one row per input row, and on a series shorter than two
12-month cycles the decomposition does fail and its reported outcome is
the caught error, while the output is still produced. -/
theorem c9_decomposition_contained (rows : List SRow) :
    (run_week2_feature_engineering rows).1 = enrichedOutput rows ∧
    (run_week2_feature_engineering rows).1.length = rows.length ∧
    ((monthlySalesValues rows).length < 24 →
      (run_week2_feature_engineering rows).2 =
        Except.error ("x must have 2 complete cycles")) := by
  refine ⟨rfl, enrichedOutput_length rows, ?_⟩
  intro h
  show seasonalDecompose (monthlySalesValues rows) = _
  unfold seasonalDecompose
  rw [if_pos h]

/-- Witness for `c9_decomposition_contained` on the empty table: the
series is shorter than 24 months, the decomposition reports its failure,
and the output is still produced. -/
theorem c9_decomposition_contained_witness :
    (run_week2_feature_engineering []).2 =
      Except.error ("x must have 2 complete cycles") :=
  (c9_decomposition_contained []).2.2 (by decide)

/-- C10: the joined-in tables have unique keys — one Monthly Series row
per month key, one volatility row per `(Region, Month)` — so both
left-joins match each daily row at most once and the enriched output has
exactly one row per input daily row. -/
theorem c10_joins (rows : List SRow) :
    ((monthlyTable rows).map MRow.key).Nodup ∧
    (∀ bases : List SRow, ((volTable bases).map Prod.fst).Nodup) ∧
    (backfillStep rows).length = rows.length ∧
    (enrichedOutput rows).length = rows.length := by
  refine ⟨monthlyTable_keys_nodup rows, fun bases => volTable_nodup bases, ?_,
    enrichedOutput_length rows⟩
  unfold backfillStep
  exact leftJoin_length _ _ _ _ (monthlyTable_keys_nodup rows)
